import Mathlib

/-!
Shallow embedding of the core data logic of the SKU generator repository
(`src/App.tsx`, `src/components/DataGrid.tsx`, `src/components/CleaningPanel.tsx`,
`src/types.ts`), together with theorems settling the frozen claims about it.

Modelling conventions:
* A row (`CleanerRow`) is an association list from column names to string cell
  values plus the `_internal_id` and `checkStatus` fields, mirroring the open
  string-keyed `CleanerRow` interface of `types.ts`.  A missing key models a
  JavaScript `undefined` property; reading a property set to `undefined` and
  reading a missing property are indistinguishable in the source, so both are
  `none` here.
* JavaScript string coercion `String(x)` on a possibly-undefined cell is
  `jsString` (`undefined` coerces to `"undefined"`); JavaScript truthiness of
  such a cell is `truthy`; `String.prototype.trim` is `jsTrim`, written
  structurally on the character list so that it computes by `decide`.
* JavaScript `Map` built from an entry list takes the last entry for a
  duplicated key, modelled by looking up in the reversed list (`jsMapGet`).
* `Array.prototype.sort` is modelled by `List.insertionSort`; the comparator
  used by the source never returns 0 on distinct entries (keys are distinct in
  the stats map), so every comparison sort produces the same output order.
-/

namespace SKU

/-- Structural whitespace trim on a character list. -/
def trimChars (cs : List Char) : List Char :=
  ((cs.dropWhile Char.isWhitespace).reverse.dropWhile Char.isWhitespace).reverse

/-- Models JavaScript `String.prototype.trim`. -/
def jsTrim (s : String) : String := ⟨trimChars s.data⟩

/-- Character-list test that `pat` occurs at the head of `cs`. -/
def begAux : List Char → List Char → Bool
  | _, [] => true
  | [], _ :: _ => false
  | c :: cs, d :: ds => c == d && begAux cs ds

/-- Models JavaScript `String.prototype.startsWith`. -/
def strBegins (s pat : String) : Bool := begAux s.data pat.data

/-- The `checkStatus` enum of `types.ts`. -/
inductive CheckStatus
  | unverified
  | verified
deriving DecidableEq

/-- The `CleanerRow` of `types.ts`: internal id, check status and the dynamic
string-keyed cell map (association list; a missing key is an undefined cell). -/
structure CleanerRow where
  _internal_id : Nat
  checkStatus : CheckStatus
  cells : List (String × String)
deriving DecidableEq

/-- Reading `row[column]`; `none` models `undefined`. -/
def getCell (r : CleanerRow) (c : String) : Option String := r.cells.lookup c

/-- JavaScript `String(x)` for a possibly-undefined cell value. -/
def jsString : Option String → String
  | none => "undefined"
  | some s => s

/-- JavaScript truthiness of a possibly-undefined string value. -/
def truthy : Option String → Bool
  | none => false
  | some s => s != ""

/-- Object spread `{ ...cells, [c]: v }`: replace the binding of `c` in place,
or append it if absent. -/
def setCells : List (String × String) → String → String → List (String × String)
  | [], c, v => [(c, v)]
  | (k, w) :: rest, c, v =>
    if k = c then (c, v) :: rest else (k, w) :: setCells rest c v

/-- Canonicalization used by the filter, stats and dedup logic of
`DataGrid.tsx`: `null`/`undefined` become the blank marker, otherwise the
value is trimmed and an empty trim becomes the blank marker. -/
def canon : Option String → String
  | none => "(空白)"
  | some s => if jsTrim s = "" then "(空白)" else jsTrim s

/-- Scope classification of `handleCellEdit` (`App.tsx`): product scope iff the
column starts with `商品` or is one of the whitelisted product-level columns. -/
def isProductScope (column : String) : Bool :=
  strBegins column "商品" || ["长", "宽", "高", "主图视频", "透明素材图"].contains column

/-- The guard `code && String(code).trim() !== ''` of `handleCellEdit`. -/
def codeGuard (code : Option String) : Bool :=
  truthy code && (jsTrim (jsString code) != "")

/-- The sync condition of `handleCellEdit` for one other row:
`code && String(code).trim() !== '' && String(row[col]) === String(code)`. -/
def syncMatch (code rowCode : Option String) : Bool :=
  codeGuard code && (jsString rowCode == jsString code)

/-- The per-row update body of `handleCellEdit`: set the cell, and reset
`checkStatus` when the edited column is critical (`商品名称` or `SKU规格`). -/
def applyEditToRow (row : CleanerRow) (column value : String) : CleanerRow :=
  let updated : CleanerRow :=
    { row with cells := setCells row.cells column value }
  if column == "商品名称" || column == "SKU规格" then
    { updated with checkStatus := .unverified }
  else updated

/-- `handleCellEdit` of `App.tsx`: locate the source row, read its product and
sku codes, and propagate the edit to the source row and to every row whose
relevant code matches the source's (exact string comparison after `String`
coercion; the emptiness guard trims, the comparison does not). -/
def handleCellEdit (rows : List CleanerRow) (rowId : Nat) (column value : String) :
    List CleanerRow :=
  match rows.find? (fun r => r._internal_id == rowId) with
  | none => rows
  | some sourceRow =>
    let productCode := getCell sourceRow "商品商家编码"
    let skuCode := getCell sourceRow "SKU商家编码"
    rows.map fun row =>
      let shouldUpdate :=
        if row._internal_id == rowId then true
        else if isProductScope column then
          syncMatch productCode (getCell row "商品商家编码")
        else
          syncMatch skuCode (getCell row "SKU商家编码")
      if shouldUpdate then applyEditToRow row column value else row

/-- A `Partial<CleanerRow>` change set of `handleBatchUpdate`: cell changes
plus an optional explicit `checkStatus` override. -/
structure RowChanges where
  cells : List (String × String)
  checkStatus : Option CheckStatus
deriving DecidableEq

/-- Merging `{ ...row, ...changes }`. -/
def applyChanges (row : CleanerRow) (ch : RowChanges) : CleanerRow :=
  { _internal_id := row._internal_id
    checkStatus := ch.checkStatus.getD row.checkStatus
    cells := ch.cells.foldl (fun cs p => setCells cs p.1 p.2) row.cells }

/-- Lookup in a JavaScript `Map` built from an entry list (last entry wins). -/
def jsMapGet (updates : List (Nat × RowChanges)) (k : Nat) : Option RowChanges :=
  updates.reverse.lookup k

/-- String-keyed variant of `jsMapGet`, for the rename / optimize maps. -/
def jsMapGetS (m : List (String × String)) (k : String) : Option String :=
  m.reverse.lookup k

/-- `handleBatchUpdate` of `App.tsx`: merge each change set into the row with
the matching id; rows without an update entry are returned unchanged. -/
def handleBatchUpdate (rows : List CleanerRow) (updates : List (Nat × RowChanges)) :
    List CleanerRow :=
  rows.map fun row =>
    match jsMapGet updates row._internal_id with
    | some ch => applyChanges row ch
    | none => row

/-- JavaScript `row[col] || ''`. -/
def nameKey (r : CleanerRow) (col : String) : String := (getCell r col).getD ""

/-- The batch-update list built by `handleRename` (`CleaningPanel.tsx`): one
entry per row whose `商品名称` is a key of the rename map, changing only
`商品名称` and never touching `checkStatus`. -/
def handleRenameUpdates (rows : List CleanerRow) (renameMap : List (String × String)) :
    List (Nat × RowChanges) :=
  (rows.filter fun r => (jsMapGetS renameMap (nameKey r "商品名称")).isSome).map
    fun r =>
      (r._internal_id,
       { cells :=
           match (getCell r "商品名称").bind (fun n => jsMapGetS renameMap n) with
           | some v => [("商品名称", v)]
           | none => []
         checkStatus := none })

/-- The batch-update list built by `handleSkuOptimize` (`CleaningPanel.tsx`),
changing only `SKU规格` and never touching `checkStatus`. -/
def handleSkuOptimizeUpdates (rows : List CleanerRow) (optimizeMap : List (String × String)) :
    List (Nat × RowChanges) :=
  (rows.filter fun r => (jsMapGetS optimizeMap (nameKey r "SKU规格")).isSome).map
    fun r =>
      (r._internal_id,
       { cells :=
           match (getCell r "SKU规格").bind (fun n => jsMapGetS optimizeMap n) with
           | some v => [("SKU规格", v)]
           | none => []
         checkStatus := none })

/-- One counting step of the stats `Map` of `getUniqueStats` (`DataGrid.tsx`):
increment the key in place, or append it with count 1 (insertion order of a
JavaScript `Map`). -/
def bump : List (String × Nat) → String → List (String × Nat)
  | [], v => [(v, 1)]
  | (k, n) :: rest, v =>
    if k = v then (k, n + 1) :: rest else (k, n) :: bump rest v

/-- Structural lexicographic (code-point) `≤` on character lists. -/
def lexLE : List Char → List Char → Bool
  | [], _ => true
  | _ :: _, [] => false
  | c :: cs, d :: ds =>
    if c.toNat < d.toNat then true
    else if d.toNat < c.toNat then false
    else lexLE cs ds

/-- The equal-count tie-break of the `getUniqueStats` comparator: the blank
marker sorts last, other keys by `localeCompare` (modelled as code-point
order). -/
def keyLE (x y : String) : Bool :=
  if x = y then true
  else if x = "(空白)" then false
  else if y = "(空白)" then true
  else lexLE x.data y.data

/-- The sort comparator of `getUniqueStats` as a `≤`-style relation:
`statLE a b` iff the comparator would not place `a` after `b` — descending
count first, then the tie-break on the keys. -/
def statLE (a b : String × Nat) : Bool :=
  if a.2 ≠ b.2 then decide (b.2 < a.2) else keyLE a.1 b.1

/-- `getUniqueStats` of `DataGrid.tsx`: canonicalize every cell of the column,
count occurrences in first-appearance order, then sort with the comparator.
`Array.prototype.sort` is modelled by `insertionSort`; the comparator never
ties on the distinct keys of the counting map, so the sorted order is the same
for every comparison sort. -/
def getUniqueStats (data : List CleanerRow) (column : String) : List (String × Nat) :=
  List.insertionSort (fun a b => statLE a b = true)
    (data.foldl (fun acc row => bump acc (canon (getCell row column))) [])

/-- The filtering pass of `filteredData` (`DataGrid.tsx`): a row passes iff
for every column with an active filter its canonicalized value is allowed. -/
def rowPassesFilters (filters : List (String × List String)) (row : CleanerRow) : Bool :=
  filters.all fun p => p.2.contains (canon (getCell row p.1))

/-- The dedup pass of `filteredData`: one seen-value set per unique column
(flattened to a set of (column, value) pairs); a row is dropped iff any unique
column's canonicalized value was already seen, and a kept row records its
value for every unique column. -/
def dedupGo (cols : List String) (seen : List (String × String)) :
    List CleanerRow → List CleanerRow
  | [] => []
  | row :: rest =>
    let isDuplicate := cols.any fun c => seen.contains (c, canon (getCell row c))
    if isDuplicate then dedupGo cols seen rest
    else
      row :: dedupGo cols (cols.foldl (fun s c => (c, canon (getCell row c)) :: s) seen) rest

/-- Modelled from the spec's words for the dedup pass, for comparison with
`dedupGo`: a value has "already been seen for a column" iff some previously
*kept* row has that canonicalized value at that column; a row is dropped iff
that holds for any unique column, and a kept row is appended to the kept
list (recording its value for every unique column simultaneously). -/
def specGo (cols : List String) (kept : List CleanerRow) :
    List CleanerRow → List CleanerRow
  | [] => []
  | r :: rest =>
    if cols.any (fun c => kept.any fun k => canon (getCell k c) == canon (getCell r c)) then
      specGo cols kept rest
    else r :: specGo cols (kept ++ [r]) rest

/-- `filteredData` of `DataGrid.tsx` (called `computeVisibleRows` in the spec):
empty data short-circuits, then the filtering pass, then the dedup pass when
some unique column is active. -/
def computeVisibleRows (rows : List CleanerRow) (filters : List (String × List String))
    (uniqueCols : List String) : List CleanerRow :=
  if rows.isEmpty then []
  else
    let result := rows.filter (rowPassesFilters filters)
    if uniqueCols.isEmpty then result else dedupGo uniqueCols [] result

/-- The distinct canonicalized values of a column, in stats order. -/
def statKeys (data : List CleanerRow) (column : String) : List String :=
  (getUniqueStats data column).map Prod.fst

/-- JavaScript `delete filters[header]` on the filter-state object. -/
def eraseColFilter (filters : List (String × List String)) (h : String) :
    List (String × List String) :=
  filters.filter fun p => p.1 ≠ h

/-- JavaScript `filters[header] = vals` on the filter-state object. -/
def setColFilter : List (String × List String) → String → List String →
    List (String × List String)
  | [], h, vs => [(h, vs)]
  | (k, w) :: rest, h, vs =>
    if k = h then (h, vs) :: rest else (k, w) :: setColFilter rest h vs

/-- `applyFilter` of `DataGrid.tsx`: if the temporary selection (a JavaScript
`Set`, modelled as a duplicate-free list) has as many elements as there are
distinct values of the column, the column's filter entry is deleted; otherwise
the entry is set to the selection. -/
def applyFilter (filters : List (String × List String)) (data : List CleanerRow)
    (header : String) (temp : List String) : List (String × List String) :=
  let allValues := statKeys data header
  if temp.length = allValues.length then eraseColFilter filters header
  else setColFilter filters header temp

/-- The required header markers of `processRawGrid` (`DataGrid.tsx`). -/
def requiredKeys : List String := ["商品名称", "商品价格"]

/-- Whether a raw grid row contains all required markers after trimming. -/
def rowHasAllKeys (row : List String) : Bool :=
  requiredKeys.all fun key => (row.map jsTrim).contains key

/-- The header-scan loop of `processRawGrid`: the first index in the first
`min(length, 10)` rows whose trimmed cells contain all required markers. -/
def headerSearch (grid : List (List String)) : Option Nat :=
  (List.range (min grid.length 10)).find? fun i => rowHasAllKeys (grid.getD i [])

/-- The header row index actually used: scan result, defaulting to row 0. -/
def headerIndexOf (grid : List (List String)) : Nat := (headerSearch grid).getD 0

/-- The `(trimmed header name, column index)` pairs of `processRawGrid`,
skipping blank headers and the `状态` pseudo-column. -/
def validHeaderIndices (hs : List String) : List (String × Nat) :=
  (hs.map jsTrim).enum.filterMap fun p =>
    if p.2 ≠ "" ∧ p.2 ≠ "状态" then some (p.2, p.1) else none

/-- The blank-row test of `processRawGrid` (all cells are the empty string). -/
def isBlankRow (row : List String) : Bool := row.all (· == "")

/-- Building one parsed row: fresh id, `unverified`, and one assignment
`rowObj[h] = rowArr[i]` per valid header (an out-of-range index assigns
`undefined`, which reads back as a missing cell). -/
def buildRow (baseId : Nat) (validIdx : List (String × Nat)) (i : Nat)
    (rowArr : List String) : CleanerRow :=
  { _internal_id := baseId + i
    checkStatus := .unverified
    cells :=
      validIdx.foldl
        (fun cs p =>
          match rowArr.get? p.2 with
          | some v => setCells cs p.1 v
          | none => cs.filter fun q => q.1 ≠ p.1)
        [] }

/-- The data rows parsed by `processRawGrid`: every non-blank row after the
header row. Row ids (`Date.now() + i + Math.random()` in the source) are
abstracted as `baseId + i`. -/
def parsedRowsOf (grid : List (List String)) (baseId : Nat) : List CleanerRow :=
  (grid.enum.drop (headerIndexOf grid + 1)).filterMap fun p =>
    if isBlankRow p.2 then none
    else some (buildRow baseId (validHeaderIndices (grid.getD (headerIndexOf grid) [])) p.1 p.2)

/-- How `processRawGrid` exits: a missing/empty grid returns silently, zero
parsed rows raises the `未找到有效数据` alert, otherwise the rows are imported. -/
inductive ImportOutcome
  | noGrid
  | noValidData
  | imported
deriving DecidableEq

/-- The grid-level state touched by an import: the Row Store plus the filter
and unique-column state. -/
structure GridState where
  rows : List CleanerRow
  activeFilters : List (String × List String)
  uniqueColumns : List String
deriving DecidableEq

/-- `handleImportData` of `App.tsx`: append the new rows (stamped
`unverified`) when there are any. -/
def handleImportData (rows newRows : List CleanerRow) : List CleanerRow :=
  if newRows.isEmpty then rows
  else rows ++ newRows.map fun r => { r with checkStatus := CheckStatus.unverified }

/-- `processRawGrid` of `DataGrid.tsx` as a state transformer: early return on
an empty grid, early return with the no-valid-data alert when no data rows
parse, otherwise clear the filter and unique-column state and import. -/
def processRawGrid (st : GridState) (grid : List (List String)) (baseId : Nat) :
    GridState × ImportOutcome :=
  if grid.isEmpty then (st, .noGrid)
  else if (parsedRowsOf grid baseId).isEmpty then (st, .noValidData)
  else
    ({ rows := handleImportData st.rows (parsedRowsOf grid baseId)
       activeFilters := []
       uniqueColumns := [] },
     .imported)

/-- The `ParsedProduct` record of `types.ts`. -/
structure ParsedProduct where
  productName : String
  price : String
  specs : String
  skuCode : String
  stock : String
  description : String
  detailHtml : String
  images : String
  skuImage : Option String
  category : String
deriving DecidableEq

/-- JavaScript `code.replace(/[一-龥]/g, '')`. -/
def removeChinese (s : String) : String :=
  ⟨s.data.filter fun c => decide ¬(0x4e00 ≤ c.toNat ∧ c.toNat ≤ 0x9fa5)⟩

/-- JavaScript string `length` (UTF-16 code units). -/
def jsLen (s : String) : Nat :=
  s.data.foldl (fun n c => n + if c.toNat ≥ 0x10000 then 2 else 1) 0

/-- JavaScript `String.prototype.padStart` with a single pad character. -/
def padStart (s : String) (w : Nat) (c : Char) : String :=
  ⟨List.replicate (w - s.data.length) c ++ s.data⟩

/-- The master product code assignment of `handleInitialCleaning`
(`CleaningPanel.tsx`): strip Chinese characters from the first variant's AI
code and trim; reuse the stripped code when it is non-empty with length > 2,
otherwise generate `timestampId + padded counter`. -/
def masterProductCode (group : List ParsedProduct) (timestampId : String)
    (productCounter : Nat) : String :=
  let aiCode := match group.head? with | some p => p.skuCode | none => ""
  let cleanedAiCode := jsTrim (removeChinese aiCode)
  if cleanedAiCode != "" && decide (2 < jsLen cleanedAiCode) then cleanedAiCode
  else timestampId ++ padStart (toString productCounter) 3 '0'

/-- The per-variant SKU code of `handleInitialCleaning`: same stripping rule on
the variant's own AI code, falling back to the master code plus a 2-digit
index suffix. -/
def variantSkuCode (p : ParsedProduct) (master : String) (index : Nat) : String :=
  let cleanedSkuCode := jsTrim (removeChinese p.skuCode)
  if cleanedSkuCode != "" && decide (2 < jsLen cleanedSkuCode) then cleanedSkuCode
  else master ++ padStart (toString (index + 1)) 2 '0'

/-- The cell map of one row produced by `handleInitialCleaning` for a variant. -/
def groupRowCells (p : ParsedProduct) (masterCode finalSkuCode : String)
    (isMultiSKU : Bool) : List (String × String) :=
  [("商品名称", p.productName),
   ("商品商家编码", masterCode),
   ("商品主图", p.images),
   ("商品详情", p.detailHtml),
   ("商品卖点", p.description),
   ("商品类目", p.category),
   ("商品价格", if isMultiSKU then "" else p.price),
   ("商品库存", if isMultiSKU then "" else p.stock),
   ("SKU规格", if isMultiSKU then p.specs else ""),
   ("SKU价格", if isMultiSKU then p.price else ""),
   ("SKU库存", if isMultiSKU then p.stock else ""),
   ("SKU商家编码", if isMultiSKU then finalSkuCode else ""),
   ("SKU主规格图", if isMultiSKU then p.skuImage.getD "" else ""),
   ("商品拼单价", ""), ("商品划线价", ""), ("商品成本价", ""), ("商品重量", ""),
   ("长", ""), ("宽", ""), ("高", ""), ("商品条形码", ""),
   ("SKU划线价", ""), ("SKU拼单价", ""), ("SKU成本价", ""), ("SKU重量", ""),
   ("SKU条形码", ""), ("商品分组", ""), ("商品属性", ""), ("透明素材图", ""),
   ("商品竖图", ""), ("商品长图", ""), ("主图视频", "")]

/-- The per-group row construction of `handleInitialCleaning`: iterate the
group's variants with their index, skip variants whose `name-specs` key was
already seen, and give every produced row the group's master code and the
per-variant SKU code.  Row ids are abstracted as `baseId + index`. -/
def buildGroupRows (timestampId : String) (productCounter : Nat) (baseId : Nat)
    (existingKeys : List String) (group : List ParsedProduct) :
    List CleanerRow × List String :=
  let isMultiSKU := decide (1 < group.length)
  let masterCode := masterProductCode group timestampId productCounter
  group.enum.foldl
    (fun acc pi =>
      let uniqueKey := pi.2.productName ++ "-" ++ pi.2.specs
      if acc.2.contains uniqueKey then acc
      else
        (acc.1 ++
          [{ _internal_id := baseId + pi.1
             checkStatus := .unverified
             cells := groupRowCells pi.2 masterCode (variantSkuCode pi.2 masterCode pi.1)
                        isMultiSKU }],
         acc.2 ++ [uniqueKey]))
    ([], existingKeys)

/-- Modelled from the spec: the claim's reading of the master-code rule, for
refinement comparison — "reused from the AI-provided code if it contains no
non-ASCII/Chinese characters and has length > 2, otherwise a
timestamp-plus-counter code". -/
def specMasterProductCode (group : List ParsedProduct) (timestampId : String)
    (productCounter : Nat) : String :=
  let aiCode := match group.head? with | some p => p.skuCode | none => ""
  if aiCode.data.all (fun c => decide (c.toNat < 128)) && decide (2 < jsLen aiCode) then
    aiCode
  else timestampId ++ padStart (toString productCounter) 3 '0'

/-! ### Concrete rows used by counterexamples and witnesses -/

/-- Source row of the C1 counterexample: product code `"ABC"`. -/
def cexTrimA : CleanerRow := ⟨1, .unverified, [("商品商家编码", "ABC"), ("商品卖点", "old")]⟩

/-- Sibling row of the C1 counterexample: product code `" ABC"`, equal to the
source's code after trimming but not as an exact string. -/
def cexTrimB : CleanerRow := ⟨2, .unverified, [("商品商家编码", " ABC"), ("商品卖点", "old")]⟩

/-- First row of the C1 witness pair (shared product code `"A1"`). -/
def wSyncA : CleanerRow := ⟨1, .unverified, [("商品商家编码", "A1"), ("商品卖点", "p")]⟩

/-- Second row of the C1 witness pair (shared product code `"A1"`). -/
def wSyncB : CleanerRow := ⟨2, .unverified, [("商品商家编码", "A1"), ("商品卖点", "q")]⟩

/-- The verified row renamed by the C2 counterexample. -/
def cexVerifiedRow : CleanerRow := ⟨1, .verified, [("商品名称", "Old")]⟩

/-- First row of the C6 witness pair (empty product code). -/
def wEmptyA : CleanerRow := ⟨1, .unverified, [("商品商家编码", ""), ("商品卖点", "a")]⟩

/-- Second row of the C6 witness pair (also an empty product code). -/
def wEmptyB : CleanerRow := ⟨2, .unverified, [("商品商家编码", ""), ("商品卖点", "a")]⟩


/-- First dedup-witness row (`色 = 红`). -/
def wDedupA : CleanerRow := ⟨1, .unverified, [("色", "红")]⟩

/-- Second dedup-witness row (`色 = 蓝`). -/
def wDedupB : CleanerRow := ⟨2, .unverified, [("色", "蓝")]⟩

/-- Third dedup-witness row (`色 = " 红 "`, canonically equal to the first). -/
def wDedupC : CleanerRow := ⟨3, .unverified, [("色", " 红 ")]⟩

/-- Witness grid for the header scan: the markers are on row 1 and no earlier
row has them. -/
def wGrid : List (List String) := [["x"], ["商品名称", "商品价格"], ["A", "1"]]

/-- Concrete grid state (one row, one active filter, one unique column) used
by the import claims. -/
def cexGridState : GridState :=
  ⟨[⟨1, .unverified, [("色", "红")]⟩], [("色", ["红"])], ["色"]⟩

/-- Counterexample product for the extraction-merge code rule: its AI code
`"AB中C"` contains a Chinese character yet strips to `"ABC"` of length 3. -/
def cexProduct : ParsedProduct :=
  ⟨"P", "1", "s", "AB中C", "2", "d", "h", "i", none, "c"⟩

/-- The first row produced by `buildGroupRows` on the singleton counterexample
group. -/
def wC9row : CleanerRow :=
  ((buildGroupRows "TS" 1 0 [] [cexProduct]).1).getD 0 ⟨0, .unverified, []⟩

/-- Single row with `色 = "A"`, used by the filter-removal claims. -/
def cexFilterRow : CleanerRow := ⟨1, .unverified, [("色", "A")]⟩

/-! ### Helper lemmas -/

theorem lookup_setCells_self (cs : List (String × String)) (c v : String) :
    (setCells cs c v).lookup c = some v := by
  induction cs with
  | nil => simp [setCells, List.lookup]
  | cons p rest ih =>
    obtain ⟨k, w⟩ := p
    by_cases hk : k = c
    · subst hk; simp [setCells, List.lookup]
    · simp only [setCells, if_neg hk, List.lookup]
      have : (c == k) = false := by
        simp [beq_eq_false_iff_ne]
        exact fun h => hk h.symm
      simp [this, ih]

theorem getCell_applyEditToRow (row : CleanerRow) (column value : String) :
    getCell (applyEditToRow row column value) column = some value := by
  unfold applyEditToRow getCell
  split <;> exact lookup_setCells_self _ _ _

theorem lookup_mem {β : Type} (l : List (Nat × β)) (a : Nat) (v : β)
    (h : l.lookup a = some v) : (a, v) ∈ l := by
  induction l with
  | nil => simp [List.lookup] at h
  | cons p rest ih =>
    obtain ⟨k, b⟩ := p
    rw [List.lookup] at h
    cases hbe : a == k with
    | true =>
      rw [hbe] at h
      simp only [Option.some.injEq] at h
      subst h
      have : a = k := eq_of_beq hbe
      subst this
      exact List.mem_cons_self _ _
    | false =>
      rw [hbe] at h
      exact List.mem_cons_of_mem _ (ih h)

/-! ### Claims C1, C2, C6: the synchronization engine -/

/-- C1 (counterexample): editing a product-scope column on a source row whose
trimmed product code is non-empty does NOT propagate to a row whose product
code is equal after trimming but differs as an exact string — refuting the
claim that the comparison is done on trimmed strings. -/
theorem C1_counterexample :
    isProductScope "商品卖点" = true ∧
    jsTrim (jsString (getCell cexTrimA "商品商家编码")) ≠ "" ∧
    jsTrim (jsString (getCell cexTrimB "商品商家编码"))
      = jsTrim (jsString (getCell cexTrimA "商品商家编码")) ∧
    getCell ((handleCellEdit [cexTrimA, cexTrimB] 1 "商品卖点" "new").getD 1 cexTrimA)
      "商品卖点" = some "old" := by
  decide

/-- C1 (amended): when the source row's relevant code passes the guard
(truthy and non-empty after trimming), the edit updates exactly the source row
and the rows whose relevant code equals the source's as an exact
(`String`-coerced, untrimmed) string; every other row is unchanged, and an
updated row's edited column reads the new value. -/
theorem C1_amended (rows : List CleanerRow) (rowId : Nat) (column value : String)
    (src : CleanerRow)
    (hfind : rows.find? (fun r => r._internal_id == rowId) = some src) :
    (isProductScope column = true →
      codeGuard (getCell src "商品商家编码") = true →
      handleCellEdit rows rowId column value =
        rows.map fun row =>
          if row._internal_id == rowId
             || (jsString (getCell row "商品商家编码")
                  == jsString (getCell src "商品商家编码")) then
            applyEditToRow row column value
          else row) ∧
    (isProductScope column = false →
      codeGuard (getCell src "SKU商家编码") = true →
      handleCellEdit rows rowId column value =
        rows.map fun row =>
          if row._internal_id == rowId
             || (jsString (getCell row "SKU商家编码")
                  == jsString (getCell src "SKU商家编码")) then
            applyEditToRow row column value
          else row) ∧
    (∀ row : CleanerRow, getCell (applyEditToRow row column value) column = some value) := by
  refine ⟨?_, ?_, fun row => getCell_applyEditToRow row column value⟩
  · intro hs hguard
    unfold handleCellEdit
    rw [hfind]
    dsimp only
    congr 1
    funext row
    simp only [hs, syncMatch, hguard, Bool.true_and, if_true]
    cases hid : row._internal_id == rowId <;> simp
  · intro hs hguard
    unfold handleCellEdit
    rw [hfind]
    dsimp only
    congr 1
    funext row
    simp only [hs, syncMatch, hguard, Bool.true_and]
    cases hid : row._internal_id == rowId <;> simp

/-- C1 witness: the amended propagation law evaluated on a concrete pair of
rows sharing a product code. -/
theorem C1_amended_witness :
    handleCellEdit [wSyncA, wSyncB] 1 "商品卖点" "new" =
      List.map
        (fun row =>
          if row._internal_id == 1
             || (jsString (getCell row "商品商家编码")
                  == jsString (getCell wSyncA "商品商家编码")) then
            applyEditToRow row "商品卖点" "new"
          else row)
        [wSyncA, wSyncB] :=
  (C1_amended [wSyncA, wSyncB] 1 "商品卖点" "new" wSyncA (by decide)).1
    (by decide) (by decide)

/-- C2 (counterexample): the AI-rename batch path edits the critical column
`商品名称` of a verified row yet leaves its `checkStatus` at `verified`,
refuting the claim that every mutation path resets it. -/
theorem C2_counterexample :
    (handleRenameUpdates [cexVerifiedRow] [("Old", "New")]).length = 1 ∧
    getCell
      ((handleBatchUpdate [cexVerifiedRow]
          (handleRenameUpdates [cexVerifiedRow] [("Old", "New")])).getD 0 cexVerifiedRow)
      "商品名称" = some "New" ∧
    ((handleBatchUpdate [cexVerifiedRow]
        (handleRenameUpdates [cexVerifiedRow] [("Old", "New")])).getD 0
        cexVerifiedRow).checkStatus = .verified := by
  decide

/-- C2 (amended): only the single-cell edit path resets `checkStatus`: a
critical-column `handleCellEdit` leaves every row unchanged or `unverified`,
while `handleBatchUpdate` with change sets that do not carry a `checkStatus`
override — in particular every change set produced by the AI-rename and
SKU-optimization paths — preserves every row's `checkStatus`. -/
theorem C2_amended :
    (∀ (rows : List CleanerRow) (rowId : Nat) (column value : String) (r' : CleanerRow),
      (column == "商品名称" || column == "SKU规格") = true →
      r' ∈ handleCellEdit rows rowId column value →
      r' ∈ rows ∨ r'.checkStatus = .unverified) ∧
    (∀ (rows : List CleanerRow) (updates : List (Nat × RowChanges)),
      (∀ u ∈ updates, (u : Nat × RowChanges).2.checkStatus = none) →
      (handleBatchUpdate rows updates).map (fun r => r.checkStatus)
        = rows.map fun r => r.checkStatus) ∧
    (∀ (rows : List CleanerRow) (renameMap : List (String × String)),
      ∀ u ∈ handleRenameUpdates rows renameMap,
        (u : Nat × RowChanges).2.checkStatus = none) ∧
    (∀ (rows : List CleanerRow) (optimizeMap : List (String × String)),
      ∀ u ∈ handleSkuOptimizeUpdates rows optimizeMap,
        (u : Nat × RowChanges).2.checkStatus = none) := by
  refine ⟨?_, ?_, ?_, ?_⟩
  · intro rows rowId column value r' hcrit hmem
    unfold handleCellEdit at hmem
    cases hfind : rows.find? (fun r => r._internal_id == rowId) with
    | none => rw [hfind] at hmem; exact Or.inl hmem
    | some src =>
      rw [hfind] at hmem
      dsimp only at hmem
      obtain ⟨row, hrow, rfl⟩ := List.mem_map.mp hmem
      by_cases hupd :
          (if (row._internal_id == rowId) = true then true
           else
             if isProductScope column = true then
               syncMatch (getCell src "商品商家编码") (getCell row "商品商家编码")
             else syncMatch (getCell src "SKU商家编码") (getCell row "SKU商家编码")) = true
      · rw [if_pos hupd]
        right
        unfold applyEditToRow
        rw [if_pos hcrit]
      · rw [if_neg hupd]
        exact Or.inl hrow
  · intro rows updates hupd
    unfold handleBatchUpdate
    rw [List.map_map]
    apply List.map_congr_left
    intro r _
    simp only [Function.comp]
    cases hget : jsMapGet updates r._internal_id with
    | none => rfl
    | some ch =>
      have hch : ch.checkStatus = none := by
        have := lookup_mem _ _ _ hget
        exact hupd _ (List.mem_reverse.mp this)
      simp [applyChanges, hch]
  · intro rows renameMap u hu
    unfold handleRenameUpdates at hu
    obtain ⟨r, _, rfl⟩ := List.mem_map.mp hu
    rfl
  · intro rows optimizeMap u hu
    unfold handleSkuOptimizeUpdates at hu
    obtain ⟨r, _, rfl⟩ := List.mem_map.mp hu
    rfl

/-- C2 witness: the critical-edit conjunct evaluated on one concrete verified
row, whose edited copy is indeed `unverified`. -/
theorem C2_amended_witness :
    (⟨1, .unverified, [("商品名称", "y")]⟩ : CleanerRow) ∈ [cexVerifiedRow] ∨
    (⟨1, .unverified, [("商品名称", "y")]⟩ : CleanerRow).checkStatus = .unverified :=
  C2_amended.1 [cexVerifiedRow] 1 "商品名称" "y" _ (by decide) (by decide)

/-- C6: when the source row's relevant identity code fails the propagation
guard (missing, empty, or whitespace-only), the edit touches exactly the rows
with the source's id — propagation degenerates to a single-row edit and no
other row changes, including rows whose own code is also empty. -/
theorem C6_theorem
    (rows : List CleanerRow) (rowId : Nat) (column value : String) (src : CleanerRow)
    (hfind : rows.find? (fun r => r._internal_id == rowId) = some src)
    (hcode : codeGuard (getCell src
        (if isProductScope column then "商品商家编码" else "SKU商家编码")) = false) :
    handleCellEdit rows rowId column value =
      rows.map fun row =>
        if row._internal_id == rowId then applyEditToRow row column value else row := by
  unfold handleCellEdit
  rw [hfind]
  dsimp only
  congr 1
  funext row
  cases hs : isProductScope column with
  | true =>
    rw [if_pos hs] at hcode
    simp only [hs, syncMatch, hcode, Bool.false_and, if_true]
    cases hid : row._internal_id == rowId <;> simp
  | false =>
    rw [if_neg (by simp [hs])] at hcode
    simp only [hs, syncMatch, hcode, Bool.false_and]
    cases hid : row._internal_id == rowId <;> simp

/-- C6 witness: the single-row degeneration evaluated on two rows that share
an empty product code. -/
theorem C6_witness :
    handleCellEdit [wEmptyA, wEmptyB] 1 "商品卖点" "z" =
      List.map
        (fun row => if row._internal_id == 1 then applyEditToRow row "商品卖点" "z" else row)
        [wEmptyA, wEmptyB] :=
  C6_theorem [wEmptyA, wEmptyB] 1 "商品卖点" "z" wEmptyA (by decide) (by decide)




theorem any_congr_mem {α : Type} (l : List α) (f g : α → Bool)
    (h : ∀ a ∈ l, f a = g a) : l.any f = l.any g := by
  induction l with
  | nil => rfl
  | cons x xs ih =>
    simp only [List.any_cons]
    rw [h x (List.mem_cons_self x xs), ih fun a ha => h a (List.mem_cons_of_mem x ha)]

theorem contains_foldl_push (f : String → String) (x : String × String) :
    ∀ (cols : List String) (seen : List (String × String)),
      (cols.foldl (fun s c => (c, f c) :: s) seen).contains x
        = (seen.contains x || cols.any fun c => x == (c, f c)) := by
  intro cols
  induction cols with
  | nil => intro seen; simp
  | cons c cs ih =>
    intro seen
    simp only [List.foldl_cons, List.any_cons]
    rw [ih, List.contains_cons]
    cases x == (c, f c) <;> cases seen.contains x <;> simp

theorem dedupGo_eq_specGo (cols : List String) :
    ∀ (rows : List CleanerRow) (seen : List (String × String)) (kept : List CleanerRow),
      (∀ c ∈ cols, ∀ v : String,
        seen.contains (c, v) = kept.any fun k => canon (getCell k c) == v) →
      dedupGo cols seen rows = specGo cols kept rows := by
  intro rows
  induction rows with
  | nil => intro seen kept _; rfl
  | cons r rest ih =>
    intro seen kept hinv
    have hcond :
        (cols.any fun c => seen.contains (c, canon (getCell r c)))
          = cols.any fun c => kept.any fun k => canon (getCell k c) == canon (getCell r c) :=
      any_congr_mem _ _ _ fun c hc => hinv c hc _
    rw [dedupGo, specGo]
    rw [hcond]
    by_cases hdup :
        (cols.any fun c => kept.any fun k => canon (getCell k c) == canon (getCell r c)) = true
    · rw [if_pos hdup, if_pos hdup]
      exact ih seen kept hinv
    · rw [if_neg hdup, if_neg hdup]
      congr 1
      apply ih
      intro c hc v
      rw [contains_foldl_push (fun c => canon (getCell r c)) (c, v) cols seen]
      rw [hinv c hc v]
      rw [List.any_append]
      simp only [List.any_cons, List.any_nil, Bool.or_false]
      congr 1
      rw [Bool.eq_iff_iff]
      constructor
      · intro hx
        rw [List.any_eq_true] at hx
        obtain ⟨c2, hc2, heq⟩ := hx
        have hp : (c, v) = (c2, canon (getCell r c2)) := eq_of_beq heq
        have h1 : c = c2 := congrArg Prod.fst hp
        have h2 : v = canon (getCell r c2) := congrArg Prod.snd hp
        subst h1
        rw [beq_iff_eq]
        exact h2.symm
      · intro hx
        rw [beq_iff_eq] at hx
        rw [List.any_eq_true]
        exact ⟨c, hc, by rw [beq_iff_eq, hx]⟩

theorem dedupGo_sublist (cols : List String) :
    ∀ (rows : List CleanerRow) (seen : List (String × String)),
      (dedupGo cols seen rows).Sublist rows := by
  intro rows
  induction rows with
  | nil => intro seen; simp [dedupGo]
  | cons r rest ih =>
    intro seen
    rw [dedupGo]
    by_cases hdup : (cols.any fun c => seen.contains (c, canon (getCell r c))) = true
    · rw [if_pos hdup]; exact (ih seen).cons r
    · rw [if_neg hdup]; exact (ih _).cons₂ r

theorem dedupGo_single_not_seen (c : String) :
    ∀ (rows : List CleanerRow) (seen : List (String × String)) (r : CleanerRow),
      r ∈ dedupGo [c] seen rows → seen.contains (c, canon (getCell r c)) = false := by
  intro rows
  induction rows with
  | nil => intro seen r h; simp [dedupGo] at h
  | cons x rest ih =>
    intro seen r hr
    rw [dedupGo] at hr
    by_cases hdup : ([c].any fun col => seen.contains (col, canon (getCell x col))) = true
    · rw [if_pos hdup] at hr
      exact ih seen r hr
    · rw [if_neg hdup] at hr
      rcases List.mem_cons.mp hr with rfl | hr2
      · have : seen.contains (c, canon (getCell r c)) ≠ true := by
          intro h
          exact hdup (by simpa using h)
        exact Bool.not_eq_true _ ▸ this
      · have h2 := ih _ r hr2
        simp only [List.foldl_cons, List.foldl_nil, List.contains_cons] at h2
        exact (Bool.or_eq_false_iff.mp h2).2

theorem dedupGo_single_nodup (c : String) :
    ∀ (rows : List CleanerRow) (seen : List (String × String)),
      ((dedupGo [c] seen rows).map fun r => canon (getCell r c)).Nodup := by
  intro rows
  induction rows with
  | nil => intro seen; simp [dedupGo]
  | cons x rest ih =>
    intro seen
    rw [dedupGo]
    by_cases hdup : ([c].any fun col => seen.contains (col, canon (getCell x col))) = true
    · rw [if_pos hdup]; exact ih seen
    · rw [if_neg hdup]
      simp only [List.map_cons, List.nodup_cons]
      refine ⟨?_, ih _⟩
      intro hmem
      obtain ⟨r, hr, heq⟩ := List.mem_map.mp hmem
      have h2 := dedupGo_single_not_seen c rest _ r hr
      simp only [List.foldl_cons, List.foldl_nil, List.contains_cons] at h2
      have h3 := (Bool.or_eq_false_iff.mp h2).1
      rw [heq] at h3
      simp at h3

theorem dedupGo_single_cover (c : String) :
    ∀ (rows : List CleanerRow) (seen : List (String × String)) (r : CleanerRow),
      r ∈ rows →
      seen.contains (c, canon (getCell r c)) = true ∨
        ∃ k ∈ dedupGo [c] seen rows, canon (getCell k c) = canon (getCell r c) := by
  intro rows
  induction rows with
  | nil => intro seen r h; simp at h
  | cons x rest ih =>
    intro seen r hr
    rw [dedupGo]
    by_cases hdup : ([c].any fun col => seen.contains (col, canon (getCell x col))) = true
    · rw [if_pos hdup]
      rcases List.mem_cons.mp hr with rfl | hr2
      · left; simpa using hdup
      · exact ih seen r hr2
    · rw [if_neg hdup]
      rcases List.mem_cons.mp hr with rfl | hr2
      · right; exact ⟨r, List.mem_cons_self _ _, rfl⟩
      · rcases ih ([c].foldl (fun s col => (col, canon (getCell x col)) :: s) seen) r hr2 with
          hseen | ⟨k, hk, hke⟩
        · simp only [List.foldl_cons, List.foldl_nil, List.contains_cons] at hseen
          rcases Bool.or_eq_true_iff.mp hseen with hx | hs
          · right
            refine ⟨x, List.mem_cons_self _ _, ?_⟩
            have hp := eq_of_beq hx
            exact (congrArg Prod.snd hp).symm
          · left; exact hs
        · right; exact ⟨k, List.mem_cons_of_mem _ hk, hke⟩

theorem dedupGo_single_first (c : String) :
    ∀ (rows : List CleanerRow) (seen : List (String × String)) (r : CleanerRow),
      r ∈ dedupGo [c] seen rows →
      rows.find? (fun r2 => canon (getCell r2 c) == canon (getCell r c)) = some r := by
  intro rows
  induction rows with
  | nil => intro seen r h; simp [dedupGo] at h
  | cons x rest ih =>
    intro seen r hr
    rw [dedupGo] at hr
    by_cases hdup : ([c].any fun col => seen.contains (col, canon (getCell x col))) = true
    · rw [if_pos hdup] at hr
      have hns := dedupGo_single_not_seen c rest seen r hr
      have hx : seen.contains (c, canon (getCell x c)) = true := by simpa using hdup
      have hne : (canon (getCell x c) == canon (getCell r c)) = false := by
        rw [beq_eq_false_iff_ne]
        intro heq
        rw [heq] at hx
        rw [hx] at hns
        exact Bool.true_eq_false.mp hns
      rw [List.find?]
      rw [hne]
      exact ih seen r hr
    · rw [if_neg hdup] at hr
      rcases List.mem_cons.mp hr with rfl | hr2
      · rw [List.find?]
        simp
      · have hns := dedupGo_single_not_seen c rest _ r hr2
        simp only [List.foldl_cons, List.foldl_nil, List.contains_cons] at hns
        have hne := (Bool.or_eq_false_iff.mp hns).1
        have hne2 : (canon (getCell x c) == canon (getCell r c)) = false := by
          rw [beq_eq_false_iff_ne]
          intro heq
          rw [beq_eq_false_iff_ne] at hne
          exact hne (by rw [heq])
        rw [List.find?, hne2]
        exact ih _ r hr2

theorem dedupGo_idem (cols : List String) :
    ∀ (rows : List CleanerRow) (seen : List (String × String)),
      dedupGo cols seen (dedupGo cols seen rows) = dedupGo cols seen rows := by
  intro rows
  induction rows with
  | nil => intro seen; simp [dedupGo]
  | cons x rest ih =>
    intro seen
    rw [dedupGo]
    by_cases hdup : (cols.any fun c => seen.contains (c, canon (getCell x c))) = true
    · rw [if_pos hdup]; exact ih seen
    · rw [if_neg hdup]
      rw [dedupGo]
      rw [if_neg hdup]
      rw [ih]



/-- C3: the dedup pass of `computeVisibleRows` equals the spec's declarative
description (`specGo`): rows are processed in order, a row is dropped iff some
unique column's canonicalized value already occurs in a previously kept row,
and a kept row records its value for every unique column; with a single unique
column the output is order-preserving, has pairwise distinct canonicalized
values, covers every input value, and each kept row is the earliest input row
bearing its canonicalized value. -/
theorem C3_theorem :
    (∀ (cols : List String) (rows : List CleanerRow),
       dedupGo cols [] rows = specGo cols [] rows) ∧
    (∀ (cols : List String) (rows : List CleanerRow),
       (dedupGo cols [] rows).Sublist rows) ∧
    (∀ (c : String) (rows : List CleanerRow),
       ((dedupGo [c] [] rows).map fun r => canon (getCell r c)).Nodup) ∧
    (∀ (c : String) (rows : List CleanerRow), ∀ r ∈ rows,
       ∃ k ∈ dedupGo [c] [] rows, canon (getCell k c) = canon (getCell r c)) ∧
    (∀ (c : String) (rows : List CleanerRow), ∀ r ∈ dedupGo [c] [] rows,
       rows.find? (fun r2 => canon (getCell r2 c) == canon (getCell r c)) = some r) := by
  refine ⟨fun cols rows => dedupGo_eq_specGo cols rows [] [] (by simp),
          fun cols rows => dedupGo_sublist cols rows [],
          fun c rows => dedupGo_single_nodup c rows [],
          fun c rows r hr => ?_,
          fun c rows r hr => dedupGo_single_first c rows [] r hr⟩
  rcases dedupGo_single_cover c rows [] r hr with hseen | h
  · simp at hseen
  · exact h

/-- C5: `computeVisibleRows` is idempotent — re-applying it with the same
filter state and unique columns to its own output returns the output
unchanged. -/
theorem C5_theorem (rows : List CleanerRow) (filters : List (String × List String))
    (uniqueCols : List String) :
    computeVisibleRows (computeVisibleRows rows filters uniqueCols) filters uniqueCols
      = computeVisibleRows rows filters uniqueCols := by
  unfold computeVisibleRows
  by_cases hempty : rows.isEmpty = true
  · rw [if_pos hempty]
    simp
  · rw [if_neg hempty]
    by_cases hu : uniqueCols.isEmpty = true
    · rw [if_pos hu]
      by_cases h2 : (rows.filter (rowPassesFilters filters)).isEmpty = true
      · rw [if_pos h2]
        exact (List.isEmpty_iff.mp h2).symm
      · rw [if_neg h2, if_pos hu]
        exact List.filter_eq_self.mpr fun a ha => List.of_mem_filter ha
    · rw [if_neg hu]
      by_cases h2 :
          (dedupGo uniqueCols [] (rows.filter (rowPassesFilters filters))).isEmpty = true
      · rw [if_pos h2]
        exact (List.isEmpty_iff.mp h2).symm
      · rw [if_neg h2, if_neg hu]
        have hv :
            (dedupGo uniqueCols [] (rows.filter (rowPassesFilters filters))).filter
              (rowPassesFilters filters)
              = dedupGo uniqueCols [] (rows.filter (rowPassesFilters filters)) := by
          apply List.filter_eq_self.mpr
          intro a ha
          have : a ∈ rows.filter (rowPassesFilters filters) :=
            (dedupGo_sublist uniqueCols _ []).subset ha
          exact List.of_mem_filter this
        rw [hv]
        exact dedupGo_idem uniqueCols _ []

/-- C3 witness: the earliest-occurrence law evaluated on three concrete rows
where the third row duplicates the first after canonicalization. -/
theorem C3_witness :
    [wDedupA, wDedupB, wDedupC].find?
        (fun r2 => canon (getCell r2 "色") == canon (getCell wDedupA "色"))
      = some wDedupA :=
  C3_theorem.2.2.2.2 "色" [wDedupA, wDedupB, wDedupC] wDedupA (by decide)



/-! ### Claim C4: the statistics engine -/

theorem bump_cons_eq (k v : String) (n : Nat) (rest : List (String × Nat)) :
    bump ((k, n) :: rest) v =
      if k = v then (k, n + 1) :: rest else (k, n) :: bump rest v := rfl

theorem bump_map_snd_sum (v : String) :
    ∀ acc : List (String × Nat),
      ((bump acc v).map Prod.snd).sum = (acc.map Prod.snd).sum + 1 := by
  intro acc
  induction acc with
  | nil => simp [bump]
  | cons p rest ih =>
    obtain ⟨k, n⟩ := p
    rw [bump_cons_eq]
    by_cases hk : k = v
    · rw [if_pos hk]
      simp only [List.map_cons, List.sum_cons]
      omega
    · rw [if_neg hk]
      simp only [List.map_cons, List.sum_cons, ih]
      omega

theorem bump_keys_mem (v x : String) :
    ∀ acc : List (String × Nat),
      x ∈ (bump acc v).map Prod.fst ↔ x ∈ acc.map Prod.fst ∨ x = v := by
  intro acc
  induction acc with
  | nil => simp [bump]
  | cons p rest ih =>
    obtain ⟨k, n⟩ := p
    rw [bump_cons_eq]
    by_cases hk : k = v
    · rw [if_pos hk]
      subst hk
      simp only [List.map_cons, List.mem_cons]
      tauto
    · rw [if_neg hk]
      simp only [List.map_cons, List.mem_cons, ih]
      tauto

theorem bump_keys_nodup (v : String) :
    ∀ acc : List (String × Nat),
      (acc.map Prod.fst).Nodup → ((bump acc v).map Prod.fst).Nodup := by
  intro acc
  induction acc with
  | nil => intro _; simp [bump]
  | cons p rest ih =>
    obtain ⟨k, n⟩ := p
    intro h
    simp only [List.map_cons, List.nodup_cons] at h
    rw [bump_cons_eq]
    by_cases hk : k = v
    · rw [if_pos hk]
      simp only [List.map_cons, List.nodup_cons]
      exact h
    · rw [if_neg hk]
      simp only [List.map_cons, List.nodup_cons]
      refine ⟨?_, ih h.2⟩
      intro hmem
      rcases (bump_keys_mem v k rest).mp hmem with h2 | h2
      · exact h.1 h2
      · exact hk h2

theorem counts_fold_sum (column : String) :
    ∀ (data : List CleanerRow) (acc : List (String × Nat)),
      ((data.foldl (fun acc row => bump acc (canon (getCell row column))) acc).map
        Prod.snd).sum = (acc.map Prod.snd).sum + data.length := by
  intro data
  induction data with
  | nil => intro acc; simp
  | cons r rest ih =>
    intro acc
    simp only [List.foldl_cons, List.length_cons, ih, bump_map_snd_sum]
    omega

theorem counts_fold_keys_mem (column : String) :
    ∀ (data : List CleanerRow) (acc : List (String × Nat)) (x : String),
      x ∈ (data.foldl (fun acc row => bump acc (canon (getCell row column))) acc).map
          Prod.fst
        ↔ x ∈ acc.map Prod.fst ∨ ∃ r ∈ data, canon (getCell r column) = x := by
  intro data
  induction data with
  | nil => intro acc x; simp
  | cons r rest ih =>
    intro acc x
    simp only [List.foldl_cons, ih, bump_keys_mem, List.mem_cons]
    constructor
    · rintro (⟨h | h⟩ | ⟨r2, hr2, h⟩)
      · exact Or.inl h
      · exact Or.inr ⟨r, Or.inl rfl, h.symm⟩
      · exact Or.inr ⟨r2, Or.inr hr2, h⟩
    · rintro (h | ⟨r2, (rfl | hr2), h⟩)
      · exact Or.inl (Or.inl h)
      · exact Or.inl (Or.inr h.symm)
      · exact Or.inr ⟨r2, hr2, h⟩

theorem counts_fold_nodup (column : String) :
    ∀ (data : List CleanerRow) (acc : List (String × Nat)),
      (acc.map Prod.fst).Nodup →
      ((data.foldl (fun acc row => bump acc (canon (getCell row column))) acc).map
        Prod.fst).Nodup := by
  intro data
  induction data with
  | nil => intro acc h; simpa using h
  | cons r rest ih =>
    intro acc h
    simp only [List.foldl_cons]
    exact ih _ (bump_keys_nodup _ acc h)

theorem lexLE_cons_iff (c d : Char) (cs ds : List Char) :
    lexLE (c :: cs) (d :: ds) = true ↔
      c.toNat < d.toNat ∨ (c.toNat = d.toNat ∧ lexLE cs ds = true) := by
  rw [lexLE]
  by_cases h1 : c.toNat < d.toNat
  · rw [if_pos h1]; tauto
  · rw [if_neg h1]
    by_cases h2 : d.toNat < c.toNat
    · rw [if_pos h2]
      constructor
      · intro h; exact absurd h (by simp)
      · rintro (h | ⟨h, _⟩) <;> omega
    · rw [if_neg h2]
      have : c.toNat = d.toNat := by omega
      tauto

theorem lexLE_total : ∀ x y : List Char, lexLE x y = true ∨ lexLE y x = true := by
  intro x
  induction x with
  | nil => intro y; left; rfl
  | cons c cs ih =>
    intro y
    cases y with
    | nil => right; rfl
    | cons d ds =>
      rw [lexLE_cons_iff, lexLE_cons_iff]
      by_cases h : c.toNat < d.toNat
      · left; exact Or.inl h
      · by_cases h2 : d.toNat < c.toNat
        · right; exact Or.inl h2
        · have he : c.toNat = d.toNat := by omega
          rcases ih ds with h3 | h3
          · left; exact Or.inr ⟨he, h3⟩
          · right; exact Or.inr ⟨he.symm, h3⟩

theorem lexLE_trans : ∀ x y z : List Char,
    lexLE x y = true → lexLE y z = true → lexLE x z = true := by
  intro x
  induction x with
  | nil => intro y z _ _; rfl
  | cons c cs ih =>
    intro y z hxy hyz
    cases y with
    | nil => exact absurd hxy (by simp [lexLE])
    | cons d ds =>
      cases z with
      | nil => exact absurd hyz (by simp [lexLE])
      | cons e es =>
        rw [lexLE_cons_iff] at hxy hyz ⊢
        rcases hxy with h1 | ⟨h1, h1r⟩ <;> rcases hyz with h2 | ⟨h2, h2r⟩
        · left; omega
        · left; omega
        · left; omega
        · right; exact ⟨by omega, ih ds es h1r h2r⟩

theorem keyLE_total (x y : String) : keyLE x y = true ∨ keyLE y x = true := by
  unfold keyLE
  by_cases h1 : x = y
  · left; rw [if_pos h1]
  · have h1s : ¬(y = x) := fun h => h1 h.symm
    rw [if_neg h1, if_neg h1s]
    by_cases h2 : x = "(空白)"
    · have h3 : ¬(y = "(空白)") := fun h => h1 (h2.trans h.symm)
      right
      rw [if_neg h3, if_pos h2]
    · rw [if_neg h2]
      by_cases h3 : y = "(空白)"
      · left; rw [if_pos h3]
      · rw [if_neg h3, if_neg h3, if_neg h2]
        exact lexLE_total x.data y.data

theorem keyLE_trans (x y z : String) :
    keyLE x y = true → keyLE y z = true → keyLE x z = true := by
  unfold keyLE
  intro hxy hyz
  by_cases h1 : x = y
  · subst h1; exact hyz
  · by_cases h2 : y = z
    · subst h2; rw [if_neg h1] at hxy ⊢; exact hxy
    · rw [if_neg h1] at hxy
      rw [if_neg h2] at hyz
      by_cases hb1 : x = "(空白)"
      · rw [if_pos hb1] at hxy
        exact absurd hxy (by simp)
      · rw [if_neg hb1] at hxy
        by_cases hb2 : y = "(空白)"
        · rw [if_pos hb2] at hyz
          exact absurd hyz (by simp)
        · rw [if_neg hb2] at hxy
          rw [if_neg hb2] at hyz
          by_cases h3 : x = z
          · rw [if_pos h3]
          · rw [if_neg h3, if_neg hb1]
            by_cases hb3 : z = "(空白)"
            · rw [if_pos hb3]
            · rw [if_neg hb3]
              rw [if_neg hb3] at hyz
              exact lexLE_trans _ _ _ hxy hyz

theorem statLE_total (a b : String × Nat) : statLE a b = true ∨ statLE b a = true := by
  unfold statLE
  by_cases h1 : a.2 = b.2
  · have e1 : ¬(a.2 ≠ b.2) := fun h => h h1
    have e2 : ¬(b.2 ≠ a.2) := fun h => h h1.symm
    rw [if_neg e1, if_neg e2]
    exact keyLE_total a.1 b.1
  · have e2 : b.2 ≠ a.2 := fun h => h1 h.symm
    rw [if_pos h1, if_pos e2]
    rcases Nat.lt_or_ge a.2 b.2 with h | h
    · right; exact decide_eq_true h
    · left; exact decide_eq_true (by omega)

theorem statLE_trans (a b c : String × Nat) :
    statLE a b = true → statLE b c = true → statLE a c = true := by
  unfold statLE
  intro hab hbc
  by_cases h1 : a.2 = b.2 <;> by_cases h2 : b.2 = c.2
  · have e1 : ¬(a.2 ≠ b.2) := fun h => h h1
    have e2 : ¬(b.2 ≠ c.2) := fun h => h h2
    have e3 : ¬(a.2 ≠ c.2) := fun h => h (h1.trans h2)
    rw [if_neg e1] at hab
    rw [if_neg e2] at hbc
    rw [if_neg e3]
    exact keyLE_trans _ _ _ hab hbc
  · rw [if_pos h2] at hbc
    have hc : c.2 < b.2 := of_decide_eq_true hbc
    have e3 : a.2 ≠ c.2 := by omega
    rw [if_pos e3]
    exact decide_eq_true (by omega)
  · rw [if_pos h1] at hab
    have hc : b.2 < a.2 := of_decide_eq_true hab
    have e3 : a.2 ≠ c.2 := by omega
    rw [if_pos e3]
    exact decide_eq_true (by omega)
  · rw [if_pos h1] at hab
    rw [if_pos h2] at hbc
    have hc1 : b.2 < a.2 := of_decide_eq_true hab
    have hc2 : c.2 < b.2 := of_decide_eq_true hbc
    have e3 : a.2 ≠ c.2 := by omega
    rw [if_pos e3]
    exact decide_eq_true (by omega)

instance : IsTotal (String × Nat) (fun a b => statLE a b = true) := ⟨statLE_total⟩

instance : IsTrans (String × Nat) (fun a b => statLE a b = true) := ⟨statLE_trans⟩

theorem getUniqueStats_sorted (data : List CleanerRow) (column : String) :
    (getUniqueStats data column).Sorted (fun a b => statLE a b = true) := by
  unfold getUniqueStats
  exact List.sorted_insertionSort _ _

theorem getUniqueStats_perm (data : List CleanerRow) (column : String) :
    (getUniqueStats data column).Perm
      (data.foldl (fun acc row => bump acc (canon (getCell row column))) []) := by
  unfold getUniqueStats
  exact List.perm_insertionSort _ _

theorem getUniqueStats_keys_nodup (data : List CleanerRow) (column : String) :
    ((getUniqueStats data column).map Prod.fst).Nodup := by
  have hperm := (getUniqueStats_perm data column).map Prod.fst
  exact hperm.nodup_iff.mpr (counts_fold_nodup column data [] (by simp))

theorem statLE_ne_key (a b : String × Nat) (h : statLE a b = true) (hne : a.1 ≠ b.1) :
    b.2 < a.2 ∨
      (a.2 = b.2 ∧
        (b.1 = "(空白)" ∨ (a.1 ≠ "(空白)" ∧ lexLE a.1.data b.1.data = true))) := by
  unfold statLE at h
  by_cases hc : a.2 = b.2
  · right
    refine ⟨hc, ?_⟩
    have e1 : ¬(a.2 ≠ b.2) := fun hh => hh hc
    rw [if_neg e1] at h
    unfold keyLE at h
    rw [if_neg hne] at h
    by_cases hb1 : a.1 = "(空白)"
    · rw [if_pos hb1] at h
      exact absurd h (by simp)
    · rw [if_neg hb1] at h
      by_cases hb2 : b.1 = "(空白)"
      · exact Or.inl hb2
      · rw [if_neg hb2] at h
        exact Or.inr ⟨hb1, h⟩
  · left
    rw [if_pos hc] at h
    exact of_decide_eq_true h

/-- C4: `getUniqueStats` canonicalizes each cell, the counts sum to the row
count, the keys are exactly the canonicalized values occurring in the data and
are pairwise distinct, and the list is pairwise ordered by descending count
with equal-count ties broken lexicographically except that the blank marker
sorts after any tied non-blank key. -/
theorem C4_theorem (data : List CleanerRow) (column : String) :
    ((getUniqueStats data column).map Prod.snd).sum = data.length ∧
    ((getUniqueStats data column).map Prod.fst).Nodup ∧
    (∀ k : String,
      k ∈ (getUniqueStats data column).map Prod.fst ↔
        ∃ r ∈ data, canon (getCell r column) = k) ∧
    (getUniqueStats data column).Pairwise (fun a b =>
      b.2 < a.2 ∨
        (a.2 = b.2 ∧
          (b.1 = "(空白)" ∨ (a.1 ≠ "(空白)" ∧ lexLE a.1.data b.1.data = true)))) := by
  refine ⟨?_, getUniqueStats_keys_nodup data column, ?_, ?_⟩
  · have hperm := (getUniqueStats_perm data column).map Prod.snd
    rw [hperm.sum_eq]
    have := counts_fold_sum column data []
    simpa using this
  · intro k
    have hperm := (getUniqueStats_perm data column).map Prod.fst
    rw [hperm.mem_iff]
    rw [counts_fold_keys_mem column data [] k]
    simp
  · have hs := getUniqueStats_sorted data column
    have hk :
        (getUniqueStats data column).Pairwise fun a b : String × Nat => a.1 ≠ b.1 := by
      have hnd := getUniqueStats_keys_nodup data column
      rw [List.Nodup, List.pairwise_map] at hnd
      exact hnd
    exact (hs.and hk).imp fun h => statLE_ne_key _ _ h.1 h.2


/-! ### Claims C7, C8: the import adapter -/

theorem find?_range'_least (p : Nat → Bool) :
    ∀ (n s i : Nat), (List.range' s n).find? p = some i →
      s ≤ i ∧ p i = true ∧ ∀ j, s ≤ j → j < i → p j = false := by
  intro n
  induction n with
  | zero => intro s i h; simp [List.range'] at h
  | succ m ih =>
    intro s i h
    have hr : List.range' s (m + 1) = s :: List.range' (s + 1) m := rfl
    rw [hr, List.find?] at h
    cases hp : p s with
    | true =>
      rw [hp] at h
      simp only [Option.some.injEq] at h
      subst h
      exact ⟨Nat.le_refl s, hp, fun j hj hji => by omega⟩
    | false =>
      rw [hp] at h
      obtain ⟨h1, h2, h3⟩ := ih (s + 1) i h
      refine ⟨by omega, h2, fun j hj hji => ?_⟩
      by_cases hjs : j = s
      · subst hjs; exact hp
      · exact h3 j (by omega) hji

/-- C7: the header scan picks the least index in the first `min(length, 10)`
rows whose trimmed cells contain both required markers; if no such row exists
row 0 is used; and for a non-empty grid the import aborts iff zero data rows
parse — a missing header alone never makes parsing fail. -/
theorem C7_theorem (grid : List (List String)) :
    (∀ i, i < min grid.length 10 → rowHasAllKeys (grid.getD i []) = true →
      headerIndexOf grid ≤ i ∧ rowHasAllKeys (grid.getD (headerIndexOf grid) []) = true) ∧
    ((∀ i, i < min grid.length 10 → rowHasAllKeys (grid.getD i []) = false) →
      headerIndexOf grid = 0) ∧
    (∀ (st : GridState) (baseId : Nat), grid ≠ [] →
      ((processRawGrid st grid baseId).2 = ImportOutcome.noValidData
        ↔ parsedRowsOf grid baseId = []) ∧
      ((processRawGrid st grid baseId).2 = ImportOutcome.imported
        ↔ parsedRowsOf grid baseId ≠ [])) := by
  refine ⟨?_, ?_, ?_⟩
  · intro i hi hp
    cases hfind : headerSearch grid with
    | none =>
      unfold headerSearch at hfind
      rw [List.find?_eq_none] at hfind
      have hmem : i ∈ List.range (min grid.length 10) := List.mem_range.mpr hi
      exact absurd hp (by simpa using hfind _ hmem)
    | some j =>
      have hh : headerIndexOf grid = j := by unfold headerIndexOf; rw [hfind]; rfl
      unfold headerSearch at hfind
      rw [List.range_eq_range'] at hfind
      obtain ⟨_, h2, h3⟩ := find?_range'_least _ _ _ _ hfind
      rw [hh]
      constructor
      · by_contra hc
        push_neg at hc
        exact absurd hp (by rw [h3 i (by omega) hc]; simp)
      · exact h2
  · intro hnone
    cases hfind : headerSearch grid with
    | none => unfold headerIndexOf; rw [hfind]; rfl
    | some j =>
      have hj := List.mem_of_find?_eq_some hfind
      rw [List.mem_range] at hj
      have h2 := List.find?_some hfind
      exact absurd h2 (by rw [hnone j hj]; simp)
  · intro st baseId hne
    unfold processRawGrid
    rw [if_neg (by simpa [List.isEmpty_iff] using hne)]
    by_cases hp : (parsedRowsOf grid baseId).isEmpty = true
    · rw [if_pos hp]
      rw [List.isEmpty_iff] at hp
      constructor
      · simpa using hp
      · constructor
        · intro h; exact absurd h (by simp)
        · intro h; exact absurd hp h
    · rw [if_neg hp]
      rw [List.isEmpty_iff] at hp
      constructor
      · constructor
        · intro h; exact absurd h (by simp)
        · intro h; exact absurd h hp
      · simpa using hp

/-- C7 witness: on a concrete grid whose marker row is row 1, the chosen
header index is at most 1 and carries the markers. -/
theorem C7_witness :
    headerIndexOf wGrid ≤ 1 ∧
      rowHasAllKeys (wGrid.getD (headerIndexOf wGrid) []) = true :=
  (C7_theorem wGrid).1 1 (by decide) (by decide)

/-- C8 (counterexample): the empty grid parses to zero data rows yet the
importer exits silently (`noGrid`) without the no-valid-data report — refuting
the claim that every zero-row input reports that condition (the state is
still left unchanged). -/
theorem C8_counterexample :
    parsedRowsOf [] 0 = [] ∧
    processRawGrid cexGridState [] 0 = (cexGridState, ImportOutcome.noGrid) ∧
    ImportOutcome.noGrid ≠ ImportOutcome.noValidData := by
  decide

/-- C8 (amended): for a non-empty grid with zero parsed data rows the import
reports the no-valid-data condition and returns the state (rows, filters,
unique columns) unchanged; the empty grid also leaves the state unchanged but
exits without that report. -/
theorem C8_amended (st : GridState) (grid : List (List String)) (baseId : Nat) :
    (grid ≠ [] → parsedRowsOf grid baseId = [] →
      processRawGrid st grid baseId = (st, ImportOutcome.noValidData)) ∧
    processRawGrid st [] baseId = (st, ImportOutcome.noGrid) := by
  constructor
  · intro hne hp
    unfold processRawGrid
    rw [if_neg (by simpa [List.isEmpty_iff] using hne)]
    rw [if_pos (by simpa [List.isEmpty_iff] using hp)]
  · rfl

/-- C8 witness: a header-only grid (no data rows) reported as no-valid-data
with the state returned untouched. -/
theorem C8_witness :
    processRawGrid cexGridState [["商品名称", "商品价格"]] 0
      = (cexGridState, ImportOutcome.noValidData) :=
  (C8_amended cexGridState [["商品名称", "商品价格"]] 0).1 (by decide) (by decide)


/-! ### Claim C9: extraction-merge code assignment -/

theorem buildGroup_fold_mem (ts : String) (ctr baseId : Nat) (group : List ParsedProduct) :
    ∀ (l : List (Nat × ParsedProduct)) (acc : List CleanerRow × List String)
      (r : CleanerRow),
      r ∈ (l.foldl
        (fun acc pi =>
          if acc.2.contains (pi.2.productName ++ "-" ++ pi.2.specs) then acc
          else
            (acc.1 ++
              [{ _internal_id := baseId + pi.1
                 checkStatus := .unverified
                 cells := groupRowCells pi.2 (masterProductCode group ts ctr)
                   (variantSkuCode pi.2 (masterProductCode group ts ctr) pi.1)
                   (decide (1 < group.length)) }],
             acc.2 ++ [pi.2.productName ++ "-" ++ pi.2.specs])) acc).1 →
      r ∈ acc.1 ∨ ∃ pi ∈ l,
        r = { _internal_id := baseId + pi.1
              checkStatus := .unverified
              cells := groupRowCells pi.2 (masterProductCode group ts ctr)
                (variantSkuCode pi.2 (masterProductCode group ts ctr) pi.1)
                (decide (1 < group.length)) } := by
  intro l
  induction l with
  | nil => intro acc r hr; exact Or.inl hr
  | cons pi l2 ih =>
    intro acc r hr
    rw [List.foldl_cons] at hr
    rcases ih _ r hr with hacc | ⟨pj, hpj, hre⟩
    · by_cases hc : (acc.2.contains (pi.2.productName ++ "-" ++ pi.2.specs)) = true
      · rw [if_pos hc] at hacc
        exact Or.inl hacc
      · rw [if_neg hc] at hacc
        rcases List.mem_append.mp hacc with h | h
        · exact Or.inl h
        · right
          exact ⟨pi, List.mem_cons_self _ _, List.mem_singleton.mp h⟩
    · right
      exact ⟨pj, List.mem_cons_of_mem _ hpj, hre⟩

/-- C9 (counterexample): a group whose first variant's AI code is `"AB中C"`
(contains a Chinese character, so the claim mandates a generated
timestamp-plus-counter code) actually receives the *stripped* code `"ABC"` —
the source strips Chinese characters and tests the stripped code's length,
rather than requiring the original code to contain none. -/
theorem C9_counterexample :
    (∃ ch ∈ "AB中C".data, 0x4e00 ≤ ch.toNat ∧ ch.toNat ≤ 0x9fa5) ∧
    masterProductCode [cexProduct] "20250101120000" 1 = "ABC" ∧
    specMasterProductCode [cexProduct] "20250101120000" 1 = "20250101120000001" ∧
    masterProductCode [cexProduct] "20250101120000" 1
      ≠ specMasterProductCode [cexProduct] "20250101120000" 1 := by
  refine ⟨⟨'中', by decide, by decide⟩, by decide, by decide, by decide⟩

/-- C9 (amended): every row produced for a variant group carries the group's
single master product code (the first variant's AI code with Chinese
characters stripped and trimmed, reused iff the *stripped* code is non-empty
with length > 2, otherwise timestamp-plus-counter), and each row's SKU code
follows the same stripped-code rule per-variant with the master code plus a
2-digit index suffix as fallback (blank in the single-SKU case). -/
theorem C9_amended (ts : String) (ctr baseId : Nat) (existingKeys : List String)
    (group : List ParsedProduct) :
    (∀ r ∈ (buildGroupRows ts ctr baseId existingKeys group).1,
      getCell r "商品商家编码" = some (masterProductCode group ts ctr)) ∧
    (∀ r ∈ (buildGroupRows ts ctr baseId existingKeys group).1,
      ∃ pi ∈ group.enum,
        getCell r "SKU商家编码" =
          some (if 1 < group.length then
                  variantSkuCode pi.2 (masterProductCode group ts ctr) pi.1
                else "")) := by
  constructor
  · intro r hr
    rcases buildGroup_fold_mem ts ctr baseId group group.enum ([], existingKeys) r hr with
      h | ⟨pi, _, rfl⟩
    · simp at h
    · rfl
  · intro r hr
    rcases buildGroup_fold_mem ts ctr baseId group group.enum ([], existingKeys) r hr with
      h | ⟨pi, hpi, rfl⟩
    · simp at h
    · refine ⟨pi, hpi, ?_⟩
      have hcell :
          getCell
            { _internal_id := baseId + pi.1
              checkStatus := .unverified
              cells := groupRowCells pi.2 (masterProductCode group ts ctr)
                (variantSkuCode pi.2 (masterProductCode group ts ctr) pi.1)
                (decide (1 < group.length)) } "SKU商家编码"
            = some (if decide (1 < group.length) = true then
                      variantSkuCode pi.2 (masterProductCode group ts ctr) pi.1
                    else "") := rfl
      rw [hcell]
      by_cases h : 1 < group.length <;> simp [h]

/-- C9 witness: the amended master-code law evaluated on the concrete
singleton group. -/
theorem C9_witness :
    getCell wC9row "商品商家编码" = some (masterProductCode [cexProduct] "TS" 1) :=
  (C9_amended "TS" 1 0 [] [cexProduct]).1 wC9row (by decide)

/-! ### Claim C10: select-all filter removal -/

theorem lookup_eq_none_of_keys_ne (h : String) :
    ∀ l : List (String × List String), (∀ p ∈ l, p.1 ≠ h) → l.lookup h = none := by
  intro l
  induction l with
  | nil => intro _; rfl
  | cons p rest ih =>
    obtain ⟨k, w⟩ := p
    intro hall
    rw [List.lookup]
    have hbe : (h == k) = false := by
      rw [beq_eq_false_iff_ne]
      exact fun hh => hall (k, w) (List.mem_cons_self _ _) hh.symm
    rw [hbe]
    exact ih fun q hq => hall q (List.mem_cons_of_mem _ hq)

theorem lookup_eraseColFilter (h : String) (filters : List (String × List String)) :
    (eraseColFilter filters h).lookup h = none := by
  apply lookup_eq_none_of_keys_ne
  intro p hp
  have := List.of_mem_filter hp
  exact of_decide_eq_true this

theorem lookup_setColFilter_self (h : String) (vs : List String) :
    ∀ filters : List (String × List String),
      (setColFilter filters h vs).lookup h = some vs := by
  intro filters
  induction filters with
  | nil => simp [setColFilter, List.lookup]
  | cons p rest ih =>
    obtain ⟨k, w⟩ := p
    by_cases hk : k = h
    · subst hk; simp [setColFilter, List.lookup]
    · simp only [setColFilter, if_neg hk, List.lookup]
      have hbe : (h == k) = false := by
        rw [beq_eq_false_iff_ne]
        exact fun hh => hk hh.symm
      rw [hbe]
      exact ih

theorem statKeys_nodup (data : List CleanerRow) (column : String) :
    (statKeys data column).Nodup := getUniqueStats_keys_nodup data column

/-- C10 (counterexample): a temporary selection `{"A", "B"}` contains every
distinct canonicalized value of the column (`{"A"}`), yet `applyFilter` keeps
the column's entry — with an allow-set covering all current distinct values —
because the removal test compares sizes, not sets. -/
theorem C10_counterexample :
    statKeys [cexFilterRow] "色" = ["A"] ∧
    ("A" : String) ∈ (["A", "B"] : List String) ∧
    applyFilter [] [cexFilterRow] "色" ["A", "B"] = [("色", ["A", "B"])] := by
  decide

/-- C10 (amended): `applyFilter` removes the column's filter entry iff the
temporary selection's size equals the number of distinct canonicalized values;
when the selection is a duplicate-free subset of the current distinct values
this coincides with the selection containing every distinct value. -/
theorem C10_amended (filters : List (String × List String)) (data : List CleanerRow)
    (header : String) (temp : List String) :
    ((applyFilter filters data header temp).lookup header = none ↔
      temp.length = (statKeys data header).length) ∧
    (temp.Nodup → (∀ v ∈ temp, v ∈ statKeys data header) →
      ((applyFilter filters data header temp).lookup header = none ↔
        ∀ v ∈ statKeys data header, v ∈ temp)) := by
  have hmain :
      (applyFilter filters data header temp).lookup header = none ↔
        temp.length = (statKeys data header).length := by
    unfold applyFilter
    by_cases hlen : temp.length = (statKeys data header).length
    · rw [if_pos hlen]
      simp [lookup_eraseColFilter, hlen]
    · rw [if_neg hlen]
      simp [lookup_setColFilter_self, hlen]
  refine ⟨hmain, fun hnd hsub => hmain.trans ?_⟩
  have hknd := statKeys_nodup data header
  constructor
  · intro hlen v hv
    have hsubF : temp.toFinset ⊆ (statKeys data header).toFinset := by
      intro x hx
      rw [List.mem_toFinset] at hx ⊢
      exact hsub x hx
    have hcards : (statKeys data header).toFinset.card ≤ temp.toFinset.card := by
      rw [List.toFinset_card_of_nodup hnd, List.toFinset_card_of_nodup hknd]
      omega
    have heq := Finset.eq_of_subset_of_card_le hsubF hcards
    rw [← List.mem_toFinset, ← heq, List.mem_toFinset] at hv
    exact hv
  · intro hcover
    have h1 : temp.toFinset = (statKeys data header).toFinset := by
      apply Finset.Subset.antisymm
      · intro x hx
        rw [List.mem_toFinset] at hx ⊢
        exact hsub x hx
      · intro x hx
        rw [List.mem_toFinset] at hx ⊢
        exact hcover x hx
    rw [← List.toFinset_card_of_nodup hnd, ← List.toFinset_card_of_nodup hknd, h1]

/-- C10 witness: the subset form of the removal law evaluated on one concrete
row and a selection equal to the value set. -/
theorem C10_witness :
    (applyFilter [] [cexFilterRow] "色" ["A"]).lookup "色" = none ↔
      ∀ v ∈ statKeys [cexFilterRow] "色", v ∈ (["A"] : List String) :=
  (C10_amended [] [cexFilterRow] "色" ["A"]).2 (by decide) (by decide)

end SKU
